import Mathlib

/-!
Verification of the qibo circuit-execution core (`src/qibo/core/circuit.py`)
against its specification.  The Python classes `Circuit` and
`DensityMatrixCircuit` are shallowly embedded: tensors are shape-annotated
flat lists of exact complex scalars, gates are functions on tensors that may
consume a random stream and may fail, and the mutable Python object is passed
explicitly as a `Circuit` record.
-/

set_option maxHeartbeats 1000000

namespace Qibo

/-- Exact complex scalar (rational real and imaginary part).  Stands for the
backend's complex dtype; the claims under study never need real-closed
arithmetic. -/
structure Cplx where
  re : ℚ
  im : ℚ
deriving DecidableEq

def Cplx.mul (a b : Cplx) : Cplx :=
  ⟨a.re * b.re - a.im * b.im, a.re * b.im + a.im * b.re⟩

/-- Complex conjugate, the backend's `K.conj`. -/
def Cplx.conj (a : Cplx) : Cplx :=
  ⟨a.re, -a.im⟩

/-- A backend tensor: a shape tuple together with row-major flat data.
`K.reshape` only changes the shape annotation. -/
structure Tensor where
  shape : List ℕ
  data : List Cplx
deriving DecidableEq

/-- Backend `K.reshape`: data preserved, shape replaced. -/
def Tensor.reshape (t : Tensor) (s : List ℕ) : Tensor :=
  ⟨s, t.data⟩

/-- Backend `K.conj`, elementwise. -/
def Tensor.conj (t : Tensor) : Tensor :=
  ⟨t.shape, t.data.map Cplx.conj⟩

/-- Backend `K.outer` (`tensordot` with `axes=0`): shapes concatenate and the
data is the row-major outer product. -/
def Tensor.outer (t u : Tensor) : Tensor :=
  ⟨t.shape ++ u.shape,
   (t.data.map (fun a => u.data.map (fun b => Cplx.mul a b))).flatten⟩

/-- Backend `K.stack(results, axis=0)`: prepend the list length to the common
shape of the entries. -/
def stackTensors (ts : List Tensor) : Tensor :=
  ⟨ts.length :: (ts.headD ⟨[], []⟩).shape, (ts.map Tensor.data).flatten⟩

/-- Python exceptions raised by the circuit core (`raise_error` in
`qibo/config.py` raises the given exception class). -/
inductive Err
  | typeError (msg : String)
  | valueError (msg : String)
  | runtimeError (msg : String)
  | notImplementedError
  | oom
deriving DecidableEq

/-- A value handed to `execute` as `initial_state`: either a backend tensor or
some other Python object (not one of `K.tensor_types`). -/
inductive PyValue
  | tensor (t : Tensor)
  | nonTensor (tag : String)
deriving DecidableEq

/-- Stream of random draws: channel gates and measurement sampling consume it. -/
abbrev Rng := List ℕ

/-- A prepared gate as used by `_eager_execute`: it consumes the current state
and the random stream and either fails (raises) or returns the next state and
the remaining stream.  Deterministic unitaries ignore and return the stream
unchanged; channels consume draws. -/
abbrev Gate := Tensor → Rng → Except Err (Tensor × Rng)

/-- The measurement gate as called by `execute` / `_repeated_execute`:
`call state nshots rng` returns `nshots` decimal samples and the remaining
stream. -/
structure MGate where
  qubits : List ℕ
  call : Tensor → ℕ → Rng → List ℕ × Rng

/-- Backend flags the circuit core reads: `K.custom_gates` decides both the
reshape branches of `_execute` and the `compile` guard. -/
structure Backend where
  customGates : Bool

/-- The mutable state of a `qibo.core.circuit.Circuit` object.  Fields
`queue`, `measurement_gate`, `measurement_tuples` and `repeated_execution`
live in the abstract base class, which is not part of the excerpt; they are
modelled from the spec (§3): ordered gate queue, optional measurement gate,
register map, and a flag that is true exactly when stochastic channels force
repeated execution. -/
structure Circuit where
  nqubits : ℕ
  queue : List Gate
  measurementGate : Option MGate
  measurementTuples : List (String × List ℕ)
  finalState : Option Tensor
  compiledExecute : Option Unit
  checkInitialStateShape : Bool
  isDensityMatrix : Bool
  repeatedExecution : Bool

/-- The `VECTOR` shape entry installed by `DensityMatrixCircuit.__init__`. -/
def Circuit.shapeVECTOR (c : Circuit) : List ℕ :=
  [2 ^ c.nqubits]

/-- The `FLAT` shape entry: `(2 ** n,)` for state vectors, doubled for
density matrices. -/
def Circuit.shapeFLAT (c : Circuit) : List ℕ :=
  if c.isDensityMatrix then [2 ^ c.nqubits, 2 ^ c.nqubits] else [2 ^ c.nqubits]

/-- The `TENSOR` shape entry: one axis of size 2 per qubit, doubled for
density matrices. -/
def Circuit.shapeTENSOR (c : Circuit) : List ℕ :=
  List.replicate ((if c.isDensityMatrix then 2 else 1) * c.nqubits) 2

/-- Flat data of the all-zero computational basis state: first amplitude 1,
the rest 0. -/
def basisZeroData : ℕ → List Cplx
  | 0 => []
  | d + 1 => ⟨1, 0⟩ :: List.replicate d ⟨0, 0⟩

/-- Backend `K.initial_state(nqubits, is_matrix)`: the state `|0...0>` as a
flat vector, or `|0...0><0...0|` as a matrix. -/
def initialStateTensor (n : ℕ) (isMatrix : Bool) : Tensor :=
  if isMatrix then ⟨[2 ^ n, 2 ^ n], basisZeroData (2 ^ n * 2 ^ n)⟩
  else ⟨[2 ^ n], basisZeroData (2 ^ n)⟩

/-- Embeds `Circuit._cast_initial_state` (lines 256-260): tensor types are cast
(identity in the model), anything else raises `TypeError`. -/
def castInitialStateSV (v : PyValue) : Except Err Tensor :=
  match v with
  | .tensor t => .ok t
  | .nonTensor _ => .error (.typeError "Initial state type is not recognized.")

/-- Embeds `_cast_initial_state` with the `DensityMatrixCircuit` override
(lines 308-313): a tensor of the pure-vector shape is promoted to the density
matrix `outer(state, conj(state))` before the base cast; dispatch is by the
`density_matrix` class flag. -/
def Circuit.castInitialState (c : Circuit) (v : PyValue) : Except Err Tensor :=
  if c.isDensityMatrix then
    match v with
    | .tensor t =>
        castInitialStateSV
          (.tensor (if t.shape = c.shapeVECTOR then t.outer t.conj else t))
    | .nonTensor tag => castInitialStateSV (.nonTensor tag)
  else castInitialStateSV v

/-- Embeds `Circuit.get_initial_state` (lines 262-274): default state when none is
given; otherwise cast, then (when `check_initial_state_shape`) reject any
shape other than `FLAT` with a `ValueError`. -/
def Circuit.getInitialState (c : Circuit) (v : Option PyValue) : Except Err Tensor :=
  match v with
  | none => .ok (initialStateTensor c.nqubits c.isDensityMatrix)
  | some v =>
    match c.castInitialState v with
    | .error e => .error e
    | .ok st =>
      if c.checkInitialStateShape ∧ st.shape ≠ c.shapeFLAT then
        .error (.valueError "Invalid initial state shape for circuit.")
      else .ok st

/-- Embeds `Circuit._eager_execute` (lines 114-118): fold the queue over the state,
threading the random stream and propagating the first failure. -/
def eagerExecute : List Gate → Tensor → Rng → Except Err Tensor × Rng
  | [], st, r => (.ok st, r)
  | g :: gs, st, r =>
    match g st r with
    | .error e => (.error e, r)
    | .ok (st', r') => eagerExecute gs st' r'

/-- The reshape of the final state back to flat form at the end of
`_execute` (line 158-159): skipped when the backend uses custom gates. -/
def finalReshape (K : Backend) (c : Circuit) (st : Tensor) : Tensor :=
  if K.customGates then st else st.reshape (Circuit.shapeFLAT c)

/-- Embeds `Circuit._execute` (lines 144-162).  `self._final_state` is reset to
`None` first, the initial state is resolved and (unless the backend uses
custom gates) reshaped to `TENSOR` form, the queue is applied, the result is
reshaped back to flat form and stored in `_final_state`.  The compiled branch
applies the same queue (`K.compile` is semantics-preserving per the backend
contract of spec §6), so both branches run `eagerExecute`. -/
def Circuit.runExecute (K : Backend) (c : Circuit) (v : Option PyValue)
    (rng : Rng) : Circuit × Rng × Except Err Tensor :=
  match Circuit.getInitialState { c with finalState := none } v with
  | .error e => ({ c with finalState := none }, rng, .error e)
  | .ok st0 =>
    match eagerExecute c.queue
        (if K.customGates then st0 else st0.reshape (Circuit.shapeTENSOR c)) rng with
    | (.error e, r') => ({ c with finalState := none }, r', .error e)
    | (.ok st2, r') =>
      ({ c with finalState := some (finalReshape K c st2) }, r',
       .ok (finalReshape K c st2))

/-- Embeds `Circuit._device_execute` (lines 164-174): run `_execute` in the device
scope and convert a backend out-of-memory error into a `RuntimeError`. -/
def Circuit.deviceExecute (K : Backend) (c : Circuit) (v : Option PyValue)
    (rng : Rng) : Circuit × Rng × Except Err Tensor :=
  match Circuit.runExecute K c v rng with
  | (c', r', .error .oom) =>
      (c', r', .error (.runtimeError "State does not fit in device memory."))
  | out => out

/-- One sampled measurement register, `qibo.core.measurements.GateResult`
restricted to what the circuit core stores in it: the measured qubits and the
decimal samples. -/
structure GateResult where
  qubits : List ℕ
  decimalSamples : List ℕ
deriving DecidableEq

/-- Embeds `qibo.core.measurements.CircuitResult` as built by the circuit core. -/
structure CircuitResult where
  measurementTuples : List (String × List ℕ)
  result : GateResult
deriving DecidableEq

/-- What `Circuit.execute` returns to the caller: a plain final state, the
stacked per-shot states of repeated execution, or a measurement result
record. -/
inductive ExecResult
  | state (t : Tensor)
  | stacked (t : Tensor)
  | circuitResult (r : CircuitResult)
deriving DecidableEq

/-- The loop of `Circuit._repeated_execute` (lines 177-185): each iteration
runs `_device_execute`, then either takes one measurement sample
(`measurement_gate(state, nshots=1)[0]`) or keeps a copy of the state
(`K.copy` adds zeros, semantically the identity).  The circuit object is
threaded because each `_execute` mutates `_final_state`. -/
def Circuit.repLoop (K : Backend) (v : Option PyValue) :
    ℕ → Circuit → Rng → Circuit × Rng × Except Err (List (Tensor ⊕ ℕ))
  | 0, c, r => (c, r, .ok [])
  | k + 1, c, r =>
    match Circuit.deviceExecute K c v r with
    | (c1, r1, .error e) => (c1, r1, .error e)
    | (c1, r1, .ok st) =>
      match c1.measurementGate with
      | some m =>
        match Circuit.repLoop K v k c1 (m.call st 1 r1).2 with
        | (c2, r3, rest) =>
            (c2, r3, rest.map (fun l => Sum.inr ((m.call st 1 r1).1.headD 0) :: l))
      | none =>
        match Circuit.repLoop K v k c1 r1 with
        | (c2, r3, rest) => (c2, r3, rest.map (fun l => Sum.inl st :: l))

/-- Tensors collected by the no-measurement branch of the loop. -/
def leftItems (l : List (Tensor ⊕ ℕ)) : List Tensor :=
  l.filterMap (fun i => match i with | .inl t => some t | .inr _ => none)

/-- Samples collected by the measurement branch of the loop. -/
def rightItems (l : List (Tensor ⊕ ℕ)) : List ℕ :=
  l.filterMap (fun i => match i with | .inr s => some s | .inl _ => none)

/-- Embeds `Circuit._repeated_execute` (lines 176-192): run the loop, then either
stack the collected states, or wrap the collected single-shot samples into a
`GateResult` aggregated in one `CircuitResult`. -/
def Circuit.repeatedExecute (K : Backend) (c : Circuit) (nreps : ℕ)
    (v : Option PyValue) (rng : Rng) : Circuit × Rng × Except Err ExecResult :=
  match Circuit.repLoop K v nreps c rng with
  | (c', r', .error e) => (c', r', .error e)
  | (c', r', .ok items) =>
    match c'.measurementGate with
    | none => (c', r', .ok (.stacked (stackTensors (leftItems items))))
    | some m =>
        (c', r', .ok (.circuitResult
          ⟨c'.measurementTuples, ⟨m.qubits, rightItems items⟩⟩))

/-- Embeds `Circuit.execute` (lines 194-241): repeated execution when `nshots` is
given and the circuit has stochastic channels (after resetting
`_final_state`); otherwise one `_device_execute`, returning the raw state
unless a measurement gate is present and `nshots` is given, in which case the
final state is sampled. -/
def Circuit.execute (K : Backend) (c : Circuit) (v : Option PyValue)
    (nshots : Option ℕ) (rng : Rng) : Circuit × Rng × Except Err ExecResult :=
  if nshots.isSome ∧ c.repeatedExecution then
    Circuit.repeatedExecute K { c with finalState := none } (nshots.getD 0) v rng
  else
    match Circuit.deviceExecute K c v rng with
    | (c', r', .error e) => (c', r', .error e)
    | (c', r', .ok st) =>
      match c'.measurementGate, nshots with
      | some m, some k =>
        (c', (m.call st k r').2, .ok (.circuitResult
          ⟨c'.measurementTuples, ⟨m.qubits, (m.call st k r').1⟩⟩))
      | _, _ => (c', r', .ok (.state st))

/-- The `Circuit.final_state` property (lines 243-254): raises until an
execution has stored a state. -/
def Circuit.finalStateProperty (c : Circuit) : Except Err Tensor :=
  match c.finalState with
  | none => .error (.runtimeError
      "Cannot access final state before the circuit is executed.")
  | some s => .ok s

/-- Embeds `Circuit.compile` (lines 133-142). -/
def Circuit.compileCircuit (K : Backend) (c : Circuit) : Circuit × Except Err Unit :=
  if c.compiledExecute.isSome then
    (c, .error (.runtimeError "Circuit is already compiled."))
  else if c.queue.isEmpty then
    (c, .error (.runtimeError "Cannot compile circuit without gates."))
  else if K.customGates then
    (c, .error (.runtimeError "Cannot compile circuit that uses custom operators."))
  else
    ({ c with compiledExecute := some () }, .ok ())

/-- Embeds `Circuit.__init__` (lines 28-38): `_compiled_execute = None`,
`check_initial_state_shape = True`, state-vector shapes.  The queue and
measurement fields come from the abstract base constructor, which is not part
of the excerpt; modelled from the spec (§3 lifecycle): a circuit is created
with a fixed qubit count, an empty gate queue, no measurement gate, and
`final_state` unset. -/
def Circuit.new (n : ℕ) : Circuit :=
  { nqubits := n
    queue := []
    measurementGate := none
    measurementTuples := []
    finalState := none
    compiledExecute := none
    checkInitialStateShape := true
    isDensityMatrix := false
    repeatedExecution := false }

/-- Embeds `DensityMatrixCircuit.__init__` (lines 297-306) on top of the base
constructor: the `density_matrix` flag is set (shape descriptors are derived
from it in this model). -/
def Circuit.newDensityMatrix (n : ℕ) : Circuit :=
  { Circuit.new n with isDensityMatrix := true }

/-- Specification-level description of repeated execution (spec §4.3): each
shot independently re-executes the full queue from a *fresh* initial state on
the *original* circuit, threading the random stream, and records the shot's
final state together with its single-shot sample when a measurement gate is
present. -/
def Circuit.specShots (K : Backend) (c : Circuit) (v : Option PyValue) :
    ℕ → Rng → Except Err (List (Tensor × List ℕ)) × Rng
  | 0, r => (.ok [], r)
  | k + 1, r =>
    match Circuit.deviceExecute K c v r with
    | (_, r1, .error e) => (.error e, r1)
    | (_, r1, .ok st) =>
      match c.measurementGate with
      | some m =>
        match Circuit.specShots K c v k (m.call st 1 r1).2 with
        | (.error e, r3) => (.error e, r3)
        | (.ok rest, r3) => (.ok ((st, (m.call st 1 r1).1) :: rest), r3)
      | none =>
        match Circuit.specShots K c v k r1 with
        | (.error e, r3) => (.error e, r3)
        | (.ok rest, r3) => (.ok ((st, []) :: rest), r3)

/-- How one spec-level shot record appears in the `_repeated_execute` loop's
result list: the copied state when there is no measurement gate, the first
single-shot sample otherwise. -/
def shotItem (mg : Option MGate) (it : Tensor × List ℕ) : Tensor ⊕ ℕ :=
  match mg with
  | none => .inl it.1
  | some _ => .inr (it.2.headD 0)

/-- The value of `_final_state` after a run of shots: unchanged when no shot
completed, otherwise the final state of the last completed shot. -/
def lastStateUpd (x : Option Tensor) (items : List (Tensor × List ℕ)) :
    Option Tensor :=
  match items.getLast? with
  | none => x
  | some it => some it.1

namespace Fusion

/-- A 1- or 2-qubit unitary gate as seen by the fusion engine, abstracted to
the set of qubits it touches and its action on states.  `Circuit.fuse`
(lines 84-112) rebuilds the queue from fusion groups; `_fuse_copy` preserves
every gate's action (shared or copied with equal parameters), so the model
works directly on the original actions. -/
structure FGate (σ : Type) where
  qubits : Finset ℕ
  action : σ → σ

/-- Applying a gate queue in order (`_eager_execute` restricted to
deterministic unitaries). -/
def applyQueue {σ : Type} (gs : List (FGate σ)) (s : σ) : σ :=
  gs.foldl (fun s g => g.action s) s

/-- Modelled from the spec: `qibo.core.fusion.FusionGroup.from_queue` is not
part of the excerpt.  Spec §4.2: greedy left-to-right scan, extending the
current group with the next gate while the union of touched qubits stays
within 2 qubits, closing the group otherwise.  `cur` is the current group in
order, `q` its touched-qubit set. -/
def greedyAux {σ : Type} (cur : List (FGate σ)) (q : Finset ℕ) :
    List (FGate σ) → List (List (FGate σ))
  | [] => [cur]
  | g :: gs =>
    if (q ∪ g.qubits).card ≤ 2 then greedyAux (cur ++ [g]) (q ∪ g.qubits) gs
    else cur :: greedyAux [g] g.qubits gs

/-- Modelled from the spec: partition of the queue into fusion groups. -/
def greedyGroups {σ : Type} : List (FGate σ) → List (List (FGate σ))
  | [] => []
  | g :: gs => greedyAux [g] g.qubits gs

/-- Modelled from the spec: the dense action of a fusion group is the
composition of its members' matrices in application order (§4.2); the fused
gate(s) emitted for the group realize exactly that composition. -/
def fusedGate {σ : Type} (gs : List (FGate σ)) : FGate σ :=
  ⟨gs.foldl (fun a g => a ∪ g.qubits) ∅, fun s => applyQueue gs s⟩

/-- Embeds `Circuit.fuse` (lines 104-112): the new queue lists the fused gates of
the groups in order. -/
def fuseQueue {σ : Type} (queue : List (FGate σ)) : List (FGate σ) :=
  (greedyGroups queue).map fusedGate

end Fusion

namespace FuseCopy

/-- Observable data of one gate object for the copy claims: whether it is a
`ParametrizedGate`, its `trainable` flag, and its parameter value. -/
structure GateData where
  isParametrized : Bool
  trainable : Bool
  param : ℚ
deriving DecidableEq

/-- The Python object heap: gate objects addressed by reference
(references are plain naturals). -/
abbrev Heap := List GateData

def defaultGD : GateData := ⟨false, false, 0⟩

/-- Dereference a gate object. -/
def lookupG (h : Heap) (r : ℕ) : GateData :=
  h.getD r defaultGD

/-- Embeds `Circuit._fuse_copy` (lines 58-82) at the reference level: the new queue
shares every gate by reference, except that a trainable `ParametrizedGate` is
copied (`copy.copy`) into a fresh object with the same field values.  Returns
the extended heap and the new queue. -/
def fuseCopy : Heap → List ℕ → Heap × List ℕ
  | h, [] => (h, [])
  | h, r :: rs =>
    if (lookupG h r).isParametrized && (lookupG h r).trainable then
      ((fuseCopy (h ++ [lookupG h r]) rs).1,
       h.length :: (fuseCopy (h ++ [lookupG h r]) rs).2)
    else
      ((fuseCopy h rs).1, r :: (fuseCopy h rs).2)

/-- Mutating the parameter of the gate object at `r` (what
`set_parameters` on the copy does to the copy's gate). -/
def setParam (h : Heap) (r : ℕ) (x : ℚ) : Heap :=
  h.set r { lookupG h r with param := x }

end FuseCopy

namespace AddGate

/-- The gate attributes read and written by `Circuit.set_nqubits`:
`is_prepared` and `nqubits` (spec §3: prepared for exactly one circuit's
qubit count). -/
structure AbsGate where
  prepared : Bool
  nqubits : ℕ
deriving DecidableEq

/-- Embeds `Circuit.set_nqubits` (lines 40-47): reject a gate already prepared for a
different qubit count; otherwise fix the gate's qubit count to the circuit's
and prepare it (`gate.prepare()` marks it prepared, modelled from spec §3's
gate invariant). -/
def setNqubits (n : ℕ) (g : AbsGate) : Except Qibo.Err AbsGate :=
  if g.prepared ∧ g.nqubits ≠ n then
    .error (.runtimeError
      "Cannot add gate that acts on a different number of qubits.")
  else .ok { g with nqubits := n, prepared := true }

/-- Queue-side view of a circuit for the add-invariant claim. -/
structure QCircuit where
  nqubits : ℕ
  queue : List AbsGate
deriving DecidableEq

/-- Modelled from the spec: `AbstractCircuit.add` is not part of the excerpt.
Spec §4.1: `add(gate)` appends the gate to the queue after preparing it for
the circuit's qubit count via `set_nqubits`, failing on a size mismatch. -/
def addGate (c : QCircuit) (g : AbsGate) : Except Qibo.Err QCircuit :=
  match setNqubits c.nqubits g with
  | .error e => .error e
  | .ok g' => .ok { c with queue := c.queue ++ [g'] }

end AddGate

/-! Concrete instances used by witnesses and counterexamples. -/

/-- A backend without custom operators. -/
def K0 : Backend := ⟨false⟩

/-- A backend with custom operators. -/
def K1 : Backend := ⟨true⟩

/-- A deterministic gate that leaves the state unchanged. -/
def idGate : Gate := fun t r => .ok (t, r)

/-- A gate that raises. -/
def failGate : Gate := fun _ _ => .error (.runtimeError "gate failure")

/-- The state `|0>` on one qubit. -/
def tKet0 : Tensor := ⟨[2], [⟨1, 0⟩, ⟨0, 0⟩]⟩

/-- A tensor of the wrong flat shape for a 1-qubit circuit. -/
def badTensor : Tensor := ⟨[3], [⟨1, 0⟩, ⟨0, 0⟩, ⟨0, 0⟩]⟩

/-- A 1-qubit circuit with one identity gate. -/
def cOk : Circuit := { Circuit.new 1 with queue := [idGate] }

/-- A 1-qubit circuit that already holds a final state from a previous
successful execution and whose queue fails. -/
def cPrior : Circuit :=
  { Circuit.new 1 with queue := [failGate], finalState := some tKet0 }

/-- A 1-qubit repeated-execution circuit (stochastic channel flag set). -/
def cRep : Circuit :=
  { Circuit.new 1 with queue := [idGate], repeatedExecution := true }

/-- A 2-qubit circuit with an empty queue, for the add-invariant witness. -/
def qc2 : AddGate.QCircuit := ⟨2, []⟩

/-- A gate that was never prepared. -/
def gFresh : AddGate.AbsGate := ⟨false, 0⟩

/-- A gate already prepared for 3 qubits. -/
def gPrep3 : AddGate.AbsGate := ⟨true, 3⟩

/-- A heap with one trainable parametrized gate and one plain gate. -/
def heap0 : FuseCopy.Heap := [⟨true, true, 5⟩, ⟨false, false, 0⟩]

/-- A queue referencing both gates of `heap0`. -/
def hq0 : List ℕ := [0, 1]

/-- A 1-qubit fusion gate on qubit 0 (successor action). -/
def fg1 : Fusion.FGate ℕ := ⟨{0}, fun s => s + 1⟩

/-- A 1-qubit fusion gate on qubit 1 (doubling action). -/
def fg2 : Fusion.FGate ℕ := ⟨{1}, fun s => 2 * s⟩

/-! Supporting lemmas about the execution model. -/

lemma getInitialState_finalState (c : Circuit) (x : Option Tensor)
    (v : Option PyValue) :
    Circuit.getInitialState { c with finalState := x } v
      = Circuit.getInitialState c v := by
  cases v <;> rfl

lemma runExecute_finalState_any (K : Backend) (c : Circuit) (x : Option Tensor)
    (v : Option PyValue) (rng : Rng) :
    Circuit.runExecute K { c with finalState := x } v rng
      = Circuit.runExecute K c v rng := rfl

lemma deviceExecute_finalState_any (K : Backend) (c : Circuit) (x : Option Tensor)
    (v : Option PyValue) (rng : Rng) :
    Circuit.deviceExecute K { c with finalState := x } v rng
      = Circuit.deviceExecute K c v rng := rfl

lemma runExecute_cases (K : Backend) (c : Circuit) (v : Option PyValue)
    (rng : Rng) :
    (∃ t, (Circuit.runExecute K c v rng).1 = { c with finalState := some t }
        ∧ (Circuit.runExecute K c v rng).2.2 = .ok t)
    ∨ ((Circuit.runExecute K c v rng).1 = { c with finalState := none }
        ∧ ∃ e, (Circuit.runExecute K c v rng).2.2 = .error e) := by
  unfold Circuit.runExecute
  split
  · exact Or.inr ⟨rfl, _, rfl⟩
  · split
    · exact Or.inr ⟨rfl, _, rfl⟩
    · exact Or.inl ⟨_, rfl, rfl⟩

lemma deviceExecute_cases (K : Backend) (c : Circuit) (v : Option PyValue)
    (rng : Rng) :
    (∃ t, (Circuit.deviceExecute K c v rng).1 = { c with finalState := some t }
        ∧ (Circuit.deviceExecute K c v rng).2.2 = .ok t)
    ∨ ((Circuit.deviceExecute K c v rng).1 = { c with finalState := none }
        ∧ ∃ e, (Circuit.deviceExecute K c v rng).2.2 = .error e) := by
  unfold Circuit.deviceExecute
  have h := runExecute_cases K c v rng
  rcases hrun : Circuit.runExecute K c v rng with ⟨c', r', res⟩
  rw [hrun] at h
  rcases h with ⟨t, hc, hres⟩ | ⟨hc, e, hres⟩
  · simp only at hc hres
    subst hres; subst hc
    exact Or.inl ⟨t, rfl, rfl⟩
  · simp only at hc hres
    subst hres; subst hc
    cases e <;> exact Or.inr ⟨rfl, _, rfl⟩

lemma runExecute_ok_shape (K : Backend) (c : Circuit) (v : Option PyValue)
    (rng : Rng) (t : Tensor) (hK : K.customGates = false)
    (h : (Circuit.runExecute K c v rng).2.2 = .ok t) :
    t.shape = Circuit.shapeFLAT c := by
  unfold Circuit.runExecute at h
  split at h
  · simp at h
  · split at h
    · simp at h
    · simp only at h
      cases h
      simp [finalReshape, hK, Tensor.reshape]

lemma deviceExecute_ok (K : Backend) (c : Circuit) (v : Option PyValue)
    (rng : Rng) (t : Tensor)
    (h : (Circuit.deviceExecute K c v rng).2.2 = .ok t) :
    (Circuit.runExecute K c v rng).2.2 = .ok t := by
  unfold Circuit.deviceExecute at h
  rcases hrun : Circuit.runExecute K c v rng with ⟨c', r', res⟩
  rw [hrun] at h
  cases res with
  | ok s => simpa using h
  | error e => cases e <;> simp at h

/-- Claim C6: for a state-vector circuit with an explicitly supplied initial
state, a non-tensor value fails with a `TypeError` and a tensor whose flat
shape differs from `(2^n,)` fails with a shape-mismatch `ValueError`. -/
theorem initial_state_validation (c : Circuit) (tag : String) (t : Tensor)
    (hdm : c.isDensityMatrix = false) (hchk : c.checkInitialStateShape = true)
    (hshape : t.shape ≠ [2 ^ c.nqubits]) :
    Circuit.getInitialState c (some (.nonTensor tag))
      = .error (.typeError "Initial state type is not recognized.") ∧
    Circuit.getInitialState c (some (.tensor t))
      = .error (.valueError "Invalid initial state shape for circuit.") := by
  have hflat : Circuit.shapeFLAT c = [2 ^ c.nqubits] := by
    simp [Circuit.shapeFLAT, hdm]
  constructor
  · unfold Circuit.getInitialState Circuit.castInitialState castInitialStateSV
    simp [hdm]
  · unfold Circuit.getInitialState Circuit.castInitialState castInitialStateSV
    simp only [hdm, Bool.false_eq_true, if_false]
    rw [if_pos ⟨hchk, by rw [hflat]; exact hshape⟩]

/-- Witness for C6 at a fresh 1-qubit circuit, a non-tensor value and a
length-3 tensor. -/
theorem initial_state_validation_witness :
    (Circuit.new 1).isDensityMatrix = false ∧
    (Circuit.new 1).checkInitialStateShape = true ∧
    badTensor.shape ≠ [2 ^ (Circuit.new 1).nqubits] ∧
    (Circuit.getInitialState (Circuit.new 1) (some (.nonTensor "list"))
        = .error (.typeError "Initial state type is not recognized.") ∧
     Circuit.getInitialState (Circuit.new 1) (some (.tensor badTensor))
        = .error (.valueError "Invalid initial state shape for circuit.")) :=
  ⟨rfl, rfl, by decide,
   initial_state_validation (Circuit.new 1) "list" badTensor rfl rfl (by decide)⟩

/-- Claim C7: `compile()` succeeds exactly when the circuit is not yet
compiled, the queue is non-empty and the backend has no custom operators, and
then it installs the compiled-execution handle; in every other case it leaves
the circuit unchanged and fails with an invalid-state `RuntimeError`. -/
theorem compile_guards (K : Backend) (c : Circuit) :
    ((Circuit.compileCircuit K c).2 = .ok ()
      ↔ c.compiledExecute = none ∧ c.queue ≠ [] ∧ K.customGates = false) ∧
    (Circuit.compileCircuit K c
        = ({ c with compiledExecute := some () }, .ok ())
     ∨ ((Circuit.compileCircuit K c).1 = c ∧
        ∃ msg, (Circuit.compileCircuit K c).2 = .error (.runtimeError msg))) := by
  unfold Circuit.compileCircuit
  rcases hce : c.compiledExecute with _ | u
  · rcases hq : c.queue with _ | ⟨g, gs⟩
    · simp
    · rcases hcg : K.customGates with _ | _ <;> simp
  · simp

/-- Claim C8: every gate in the queue has its qubit count fixed to the
circuit's qubit count before being appended, `add` preserves this invariant,
and adding a gate already prepared for a different qubit count fails with a
size-mismatch error. -/
theorem add_preserves_nqubits (c : AddGate.QCircuit) (g gbad : AddGate.AbsGate)
    (c' : AddGate.QCircuit)
    (hinv : ∀ g0 ∈ c.queue, g0.nqubits = c.nqubits)
    (hprep : gbad.prepared = true) (hmism : gbad.nqubits ≠ c.nqubits)
    (hok : AddGate.addGate c g = .ok c') :
    (∃ msg, AddGate.addGate c gbad = .error (.runtimeError msg)) ∧
    c'.nqubits = c.nqubits ∧
    c'.queue = c.queue ++ [{ g with nqubits := c.nqubits, prepared := true }] ∧
    (∀ g0 ∈ c'.queue, g0.nqubits = c'.nqubits) := by
  refine ⟨?_, ?_⟩
  · refine ⟨"Cannot add gate that acts on a different number of qubits.", ?_⟩
    unfold AddGate.addGate AddGate.setNqubits
    rw [if_pos ⟨hprep, hmism⟩]
  · have hset : AddGate.setNqubits c.nqubits g
          = .ok { g with nqubits := c.nqubits, prepared := true }
        ∨ ∃ e, AddGate.setNqubits c.nqubits g = .error e := by
      unfold AddGate.setNqubits
      split
      · exact Or.inr ⟨_, rfl⟩
      · exact Or.inl rfl
    unfold AddGate.addGate at hok
    rcases hset with hset | ⟨e, hset⟩
    · rw [hset] at hok
      simp only [Except.ok.injEq] at hok
      subst hok
      refine ⟨rfl, rfl, ?_⟩
      intro g0 hg0
      rcases List.mem_append.mp hg0 with hmem | hmem
      · exact hinv g0 hmem
      · rcases List.mem_singleton.mp hmem with rfl
        rfl
    · rw [hset] at hok
      simp at hok

/-- Witness for C8: adding a fresh gate to an empty 2-qubit circuit succeeds
and preserves the invariant; adding a gate prepared for 3 qubits fails. -/
theorem add_preserves_nqubits_witness :
    gPrep3.prepared = true ∧ gPrep3.nqubits ≠ qc2.nqubits ∧
    AddGate.addGate qc2 gFresh = Except.ok ⟨2, [⟨true, 2⟩]⟩ ∧
    ((∃ msg, AddGate.addGate qc2 gPrep3 = .error (.runtimeError msg)) ∧
     (⟨2, [⟨true, 2⟩]⟩ : AddGate.QCircuit).nqubits = qc2.nqubits ∧
     (⟨2, [⟨true, 2⟩]⟩ : AddGate.QCircuit).queue
        = qc2.queue ++ [{ gFresh with nqubits := qc2.nqubits, prepared := true }] ∧
     (∀ g0 ∈ (⟨2, [⟨true, 2⟩]⟩ : AddGate.QCircuit).queue,
        g0.nqubits = (⟨2, [⟨true, 2⟩]⟩ : AddGate.QCircuit).nqubits)) :=
  ⟨rfl, by decide, rfl,
   add_preserves_nqubits qc2 gFresh gPrep3 ⟨2, [⟨true, 2⟩]⟩
     (by intro g0 h; cases h) rfl (by decide) rfl⟩

/-- Claim C9: accessing `final_state` on a freshly constructed circuit fails
with a `RuntimeError`; after a completed execution it returns the computed
final state. -/
theorem final_state_access (n : ℕ) (K : Backend) (c : Circuit)
    (v : Option PyValue) (rng : Rng) (c' : Circuit) (r' : Rng) (t : Tensor)
    (hexec : Circuit.execute K c v none rng = (c', r', .ok (.state t))) :
    (∃ msg, (Circuit.new n).finalStateProperty = .error (.runtimeError msg)) ∧
    c'.finalStateProperty = .ok t := by
  refine ⟨⟨_, rfl⟩, ?_⟩
  unfold Circuit.execute at hexec
  rw [if_neg (by simp)] at hexec
  have h := deviceExecute_cases K c v rng
  rcases hdev : Circuit.deviceExecute K c v rng with ⟨cd, rd, res⟩
  rw [hdev] at h hexec
  rcases h with ⟨t0, hc, hres⟩ | ⟨hc, e, hres⟩
  · simp only at hc hres
    subst hres
    rcases hmg : cd.measurementGate with _ | m <;>
      simp only [hmg, Prod.mk.injEq, Except.ok.injEq,
        ExecResult.state.injEq] at hexec <;>
      rcases hexec with ⟨hc', hr', hst⟩ <;>
      subst hst <;>
      subst hc' <;>
      rw [hc] <;>
      rfl
  · simp only at hc hres
    subst hres
    simp at hexec

/-- Claim C3 counterexample: a circuit whose `final_state` holds the value of
a previous successful execution and whose queue then fails does *not* keep
that prior value: `_execute` resets `_final_state` to `None` before applying
gates, so the failed call leaves it unset. -/
theorem failed_execution_prior_state_counterexample :
    (∃ e, (Circuit.execute K0 cPrior none none []).2.2 = .error e) ∧
    cPrior.finalState = some tKet0 ∧
    (Circuit.execute K0 cPrior none none []).1.finalState = none ∧
    (Circuit.execute K0 cPrior none none []).1.finalState ≠ cPrior.finalState :=
  ⟨⟨.runtimeError "gate failure", rfl⟩, rfl, rfl, by decide⟩

/-- Claim C3 (amended): for a circuit not in repeated-execution mode, a
failed execution call leaves `final_state` unset (it is reset to `None` at
the start of `_execute`), never a corrupted half-applied state and never the
stale value of a previous successful execution. -/
theorem failed_execution_resets_final_state (K : Backend) (c : Circuit)
    (v : Option PyValue) (ns : Option ℕ) (rng : Rng) (e : Err) (c' : Circuit)
    (r' : Rng) (hrep : c.repeatedExecution = false)
    (hfail : Circuit.execute K c v ns rng = (c', r', .error e)) :
    c'.finalState = none := by
  unfold Circuit.execute at hfail
  rw [if_neg (by simp [hrep])] at hfail
  have h := deviceExecute_cases K c v rng
  rcases hdev : Circuit.deviceExecute K c v rng with ⟨cd, rd, res⟩
  rw [hdev] at h hfail
  rcases h with ⟨t0, hc, hres⟩ | ⟨hc, e2, hres⟩
  · simp only at hc hres
    subst hres
    rcases hmg : cd.measurementGate with _ | m
    · simp [hmg] at hfail
    · rcases ns with _ | k
      · simp [hmg] at hfail
      · simp [hmg] at hfail
  · simp only at hc hres
    subst hres
    simp only [Prod.mk.injEq] at hfail
    rcases hfail with ⟨hc', _, _⟩
    subst hc'
    rw [hc]

/-- Witness for the amended C3 at the concrete failing circuit `cPrior`. -/
theorem failed_execution_resets_final_state_witness :
    cPrior.repeatedExecution = false ∧
    ({ cPrior with finalState := none } : Circuit).finalState = none :=
  ⟨rfl, failed_execution_resets_final_state K0 cPrior none none []
      (.runtimeError "gate failure") { cPrior with finalState := none } []
      rfl rfl⟩

lemma dm_promotion_cast (c : Circuit) (t : Tensor)
    (hdm : c.isDensityMatrix = true) (hshape : t.shape = [2 ^ c.nqubits]) :
    Circuit.getInitialState c (some (.tensor t))
      = Circuit.getInitialState c (some (.tensor (t.outer t.conj))) := by
  have h1 : t.shape = c.shapeVECTOR := hshape
  have houter : (t.outer t.conj).shape ≠ c.shapeVECTOR := by
    simp [Tensor.outer, Tensor.conj, hshape, Circuit.shapeVECTOR]
  unfold Circuit.getInitialState Circuit.castInitialState
  simp only [hdm, if_true]
  rw [if_pos h1, if_neg houter]

/-- Claim C4: executing a density-matrix circuit on a pure state vector of
flat shape `(2^n,)` gives exactly the same result (same final density matrix,
same stored `final_state`) as executing it on the promoted density matrix
`outer(v, conj(v))`.  Density-matrix circuits never take the
repeated-execution path (spec §4.4), hence the `repeatedExecution = false`
hypothesis. -/
theorem density_matrix_promotion (K : Backend) (c : Circuit) (t : Tensor)
    (ns : Option ℕ) (rng : Rng)
    (hdm : c.isDensityMatrix = true) (hrep : c.repeatedExecution = false)
    (hshape : t.shape = [2 ^ c.nqubits]) :
    Circuit.execute K c (some (.tensor t)) ns rng
      = Circuit.execute K c (some (.tensor (t.outer t.conj))) ns rng := by
  have hcast := dm_promotion_cast c t hdm hshape
  have hcast' : Circuit.getInitialState { c with finalState := none }
        (some (.tensor t))
      = Circuit.getInitialState { c with finalState := none }
        (some (.tensor (t.outer t.conj))) := by
    rw [getInitialState_finalState, getInitialState_finalState]
    exact hcast
  have hrun : Circuit.runExecute K c (some (.tensor t)) rng
      = Circuit.runExecute K c (some (.tensor (t.outer t.conj))) rng := by
    unfold Circuit.runExecute
    rw [hcast']
  have hdev : Circuit.deviceExecute K c (some (.tensor t)) rng
      = Circuit.deviceExecute K c (some (.tensor (t.outer t.conj))) rng := by
    unfold Circuit.deviceExecute
    rw [hrun]
  unfold Circuit.execute
  rw [if_neg (by simp [hrep]), if_neg (by simp [hrep]), hdev]

/-- Witness for C4 at a fresh 1-qubit density-matrix circuit and the pure
state `|0>`. -/
theorem density_matrix_promotion_witness :
    (Circuit.newDensityMatrix 1).isDensityMatrix = true ∧
    (Circuit.newDensityMatrix 1).repeatedExecution = false ∧
    tKet0.shape = [2 ^ (Circuit.newDensityMatrix 1).nqubits] ∧
    Circuit.execute K0 (Circuit.newDensityMatrix 1) (some (.tensor tKet0)) none []
      = Circuit.execute K0 (Circuit.newDensityMatrix 1)
          (some (.tensor (tKet0.outer tKet0.conj))) none [] :=
  ⟨rfl, rfl, by decide,
   density_matrix_promotion K0 (Circuit.newDensityMatrix 1) tKet0 none []
     rfl rfl (by decide)⟩

/-- Witness for C9: one identity-gate circuit executes successfully and its
`final_state` property then returns the stored state. -/
theorem final_state_access_witness :
    Circuit.execute K0 cOk none none []
        = ({ cOk with finalState := some tKet0 }, [], .ok (.state tKet0)) ∧
    ((∃ msg, (Circuit.new 1).finalStateProperty = .error (.runtimeError msg)) ∧
     ({ cOk with finalState := some tKet0 } : Circuit).finalStateProperty
        = .ok tKet0) :=
  ⟨rfl, final_state_access 1 K0 cOk none [] { cOk with finalState := some tKet0 }
      [] tKet0 rfl⟩

namespace Fusion

lemma applyQueue_append {σ : Type} (a b : List (FGate σ)) (s : σ) :
    applyQueue (a ++ b) s = applyQueue b (applyQueue a s) := by
  simp [applyQueue, List.foldl_append]

lemma greedyAux_flatten {σ : Type} :
    ∀ (gs cur : List (FGate σ)) (q : Finset ℕ),
      (greedyAux cur q gs).flatten = cur ++ gs := by
  intro gs
  induction gs with
  | nil => intro cur q; simp [greedyAux]
  | cons g gs ih =>
    intro cur q
    unfold greedyAux
    split
    · rw [ih]
      simp
    · simp only [List.flatten_cons, ih]
      simp

lemma applyQueue_groups {σ : Type} :
    ∀ (groups : List (List (FGate σ))) (s : σ),
      applyQueue (groups.map fusedGate) s = applyQueue groups.flatten s := by
  intro groups
  induction groups with
  | nil => intro s; rfl
  | cons gr rest ih =>
    intro s
    have h1 : applyQueue (List.map fusedGate (gr :: rest)) s
        = applyQueue (rest.map fusedGate) (applyQueue gr s) := rfl
    rw [h1, ih, List.flatten_cons, applyQueue_append]

/-- Claim C1: for any queue of 1- and 2-qubit unitary gates, executing the
fused circuit produced by `fuse()` on any initial state gives the same final
state as executing the original queue in its original order (exactly, in the
exact-arithmetic model; the spec allows floating-point tolerance). -/
theorem fuse_equivalence {σ : Type} (queue : List (FGate σ))
    (hsmall : ∀ g ∈ queue, g.qubits.card ≤ 2) (s : σ) :
    applyQueue (fuseQueue queue) s = applyQueue queue s := by
  cases queue with
  | nil => rfl
  | cons g gs =>
    unfold fuseQueue greedyGroups
    rw [applyQueue_groups, greedyAux_flatten]
    rfl

end Fusion

/-- Witness for C1 at a two-gate 1-qubit-per-gate queue on the state `3`. -/
theorem fuse_equivalence_witness :
    (∀ g ∈ [fg1, fg2], g.qubits.card ≤ 2) ∧
    Fusion.applyQueue (Fusion.fuseQueue [fg1, fg2]) 3
      = Fusion.applyQueue [fg1, fg2] 3 :=
  ⟨by
    intro g hg
    simp only [List.mem_cons, List.not_mem_nil, or_false] at hg
    rcases hg with rfl | rfl <;> decide,
   Fusion.fuse_equivalence [fg1, fg2]
     (by
       intro g hg
       simp only [List.mem_cons, List.not_mem_nil, or_false] at hg
       rcases hg with rfl | rfl <;> decide) 3⟩

namespace FuseCopy

lemma lookupG_append (h ext : Heap) (r : ℕ) (hr : r < h.length) :
    lookupG (h ++ ext) r = lookupG h r := by
  unfold lookupG
  rw [List.getD_append _ _ _ _ hr]

lemma lookupG_set_ne (H : Heap) (a b : ℕ) (gd : GateData) (hne : a ≠ b) :
    lookupG (H.set a gd) b = lookupG H b := by
  unfold lookupG
  rw [List.getD_eq_getElem?_getD, List.getD_eq_getElem?_getD,
    List.getElem?_set_ne hne]

lemma lookupG_append_self (h : Heap) (g : GateData) (ext : Heap) :
    lookupG (h ++ [g] ++ ext) h.length = g := by
  unfold lookupG
  rw [List.append_assoc, List.getD_append_right _ _ _ _ (le_refl _)]
  simp

lemma fuseCopy_heap_ext :
    ∀ (q : List ℕ) (h : Heap), ∃ ext, (fuseCopy h q).1 = h ++ ext := by
  intro q
  induction q with
  | nil => intro h; exact ⟨[], by simp [fuseCopy]⟩
  | cons r rs ih =>
    intro h
    unfold fuseCopy
    split
    · rcases ih (h ++ [lookupG h r]) with ⟨ext, hext⟩
      exact ⟨[lookupG h r] ++ ext, by simp [hext]⟩
    · exact ih h

lemma fuseCopy_length :
    ∀ (q : List ℕ) (h : Heap), (fuseCopy h q).2.length = q.length := by
  intro q
  induction q with
  | nil => intro h; rfl
  | cons r rs ih =>
    intro h
    unfold fuseCopy
    split
    · simp [ih]
    · simp [ih]

lemma fuseCopy_pointwise :
    ∀ (q : List ℕ) (h : Heap) (i : ℕ),
      (∀ r ∈ q, r < h.length) → i < q.length →
      (if (lookupG h (q.getD i 0)).isParametrized
          && (lookupG h (q.getD i 0)).trainable then
        h.length ≤ (fuseCopy h q).2.getD i 0 ∧
        lookupG (fuseCopy h q).1 ((fuseCopy h q).2.getD i 0)
          = lookupG h (q.getD i 0)
      else (fuseCopy h q).2.getD i 0 = q.getD i 0) := by
  intro q
  induction q with
  | nil => intro h i _ hi; exact absurd hi (by simp)
  | cons r rs ih =>
    intro h i hval hi
    by_cases hg : ((lookupG h r).isParametrized && (lookupG h r).trainable) = true
    · cases i with
      | zero =>
        simp only [fuseCopy, if_pos hg]
        rw [show (r :: rs).getD 0 0 = r from rfl, if_pos hg]
        refine ⟨le_refl _, ?_⟩
        rcases fuseCopy_heap_ext rs (h ++ [lookupG h r]) with ⟨ext, hext⟩
        rw [show (List.length h
              :: (fuseCopy (h ++ [lookupG h r]) rs).2).getD 0 0
            = List.length h from rfl, hext]
        exact lookupG_append_self h _ ext
      | succ j =>
        have hj : j < rs.length := by simpa using hi
        have hval' : ∀ r' ∈ rs, r' < (h ++ [lookupG h r]).length := by
          intro r' hr'
          have := hval r' (List.mem_cons_of_mem _ hr')
          rw [List.length_append]
          omega
        have hrj : rs.getD j 0 ∈ rs := by
          rw [List.getD_eq_getElem _ _ hj]
          exact List.getElem_mem hj
        have hlt : rs.getD j 0 < h.length :=
          hval _ (List.mem_cons_of_mem _ hrj)
        have hih := ih (h ++ [lookupG h r]) j hval' hj
        rw [lookupG_append h [lookupG h r] _ hlt] at hih
        simp only [fuseCopy, if_pos hg]
        rw [show (r :: rs).getD (j + 1) 0 = rs.getD j 0 from rfl,
            show (List.length h
                :: (fuseCopy (h ++ [lookupG h r]) rs).2).getD (j + 1) 0
              = (fuseCopy (h ++ [lookupG h r]) rs).2.getD j 0 from rfl]
        by_cases hcond : ((lookupG h (rs.getD j 0)).isParametrized
            && (lookupG h (rs.getD j 0)).trainable) = true
        · rw [if_pos hcond] at hih ⊢
          refine ⟨le_trans ?_ hih.1, hih.2⟩
          rw [List.length_append]
          omega
        · rw [if_neg hcond] at hih ⊢
          exact hih
    · cases i with
      | zero =>
        simp only [fuseCopy, if_neg hg]
        rw [show (r :: rs).getD 0 0 = r from rfl, if_neg hg]
        rfl
      | succ j =>
        have hj : j < rs.length := by simpa using hi
        have hval' : ∀ r' ∈ rs, r' < h.length := fun r' hr' =>
          hval r' (List.mem_cons_of_mem _ hr')
        have hih := ih h j hval' hj
        simp only [fuseCopy, if_neg hg]
        rw [show (r :: rs).getD (j + 1) 0 = rs.getD j 0 from rfl,
            show (r :: (fuseCopy h rs).2).getD (j + 1) 0
              = (fuseCopy h rs).2.getD j 0 from rfl]
        exact hih

end FuseCopy

/-- Claim C5: the copy built by `_fuse_copy` shares every gate that is not a
trainable parametrized gate by reference; each trainable parametrized gate is
replaced by a fresh object (a reference not present in the original circuit)
carrying the same data, and mutating that copy's parameter leaves every gate
object referenced by the original queue unchanged. -/
theorem fuse_copy_sharing (h : FuseCopy.Heap) (q : List ℕ)
    (i : ℕ) (x : ℚ) (s : ℕ)
    (hval : ∀ r ∈ q, r < h.length) (hi : i < q.length) (hs : s ∈ q) :
    (FuseCopy.fuseCopy h q).2.length = q.length ∧
    (∃ ext, (FuseCopy.fuseCopy h q).1 = h ++ ext) ∧
    (if (FuseCopy.lookupG h (q.getD i 0)).isParametrized
        && (FuseCopy.lookupG h (q.getD i 0)).trainable then
      h.length ≤ (FuseCopy.fuseCopy h q).2.getD i 0 ∧
      FuseCopy.lookupG (FuseCopy.fuseCopy h q).1
          ((FuseCopy.fuseCopy h q).2.getD i 0)
        = FuseCopy.lookupG h (q.getD i 0) ∧
      (FuseCopy.fuseCopy h q).2.getD i 0 ∉ q ∧
      FuseCopy.lookupG
          (FuseCopy.setParam (FuseCopy.fuseCopy h q).1
            ((FuseCopy.fuseCopy h q).2.getD i 0) x) s
        = FuseCopy.lookupG h s
    else (FuseCopy.fuseCopy h q).2.getD i 0 = q.getD i 0) := by
  refine ⟨FuseCopy.fuseCopy_length q h, FuseCopy.fuseCopy_heap_ext q h, ?_⟩
  have hpt := FuseCopy.fuseCopy_pointwise q h i hval hi
  by_cases hcond : (FuseCopy.lookupG h (q.getD i 0)).isParametrized
      && (FuseCopy.lookupG h (q.getD i 0)).trainable
  · rw [if_pos hcond] at hpt ⊢
    obtain ⟨hle, hdata⟩ := hpt
    have hfresh : (FuseCopy.fuseCopy h q).2.getD i 0 ∉ q := by
      intro hmem
      have := hval _ hmem
      omega
    refine ⟨hle, hdata, hfresh, ?_⟩
    rcases FuseCopy.fuseCopy_heap_ext q h with ⟨ext, hext⟩
    have hs' : s < h.length := hval s hs
    have hne : (FuseCopy.fuseCopy h q).2.getD i 0 ≠ s := by omega
    have hstep : FuseCopy.lookupG
        (FuseCopy.setParam (FuseCopy.fuseCopy h q).1
          ((FuseCopy.fuseCopy h q).2.getD i 0) x) s
        = FuseCopy.lookupG (FuseCopy.fuseCopy h q).1 s := by
      unfold FuseCopy.setParam
      exact FuseCopy.lookupG_set_ne _ _ _ _ hne
    rw [hstep, hext, FuseCopy.lookupG_append _ _ _ hs']
  · rw [if_neg hcond] at hpt ⊢
    exact hpt

/-- Witness for C5: a two-gate heap whose first gate is a trainable
parametrized gate and whose second is a plain gate. -/
theorem fuse_copy_sharing_witness :
    (∀ r ∈ hq0, r < heap0.length) ∧
    ((FuseCopy.fuseCopy heap0 hq0).2.length = hq0.length ∧
     (∃ ext, (FuseCopy.fuseCopy heap0 hq0).1 = heap0 ++ ext) ∧
     (if (FuseCopy.lookupG heap0 (hq0.getD 0 0)).isParametrized
         && (FuseCopy.lookupG heap0 (hq0.getD 0 0)).trainable then
       heap0.length ≤ (FuseCopy.fuseCopy heap0 hq0).2.getD 0 0 ∧
       FuseCopy.lookupG (FuseCopy.fuseCopy heap0 hq0).1
           ((FuseCopy.fuseCopy heap0 hq0).2.getD 0 0)
         = FuseCopy.lookupG heap0 (hq0.getD 0 0) ∧
       (FuseCopy.fuseCopy heap0 hq0).2.getD 0 0 ∉ hq0 ∧
       FuseCopy.lookupG
           (FuseCopy.setParam (FuseCopy.fuseCopy heap0 hq0).1
             ((FuseCopy.fuseCopy heap0 hq0).2.getD 0 0) 7) 0
         = FuseCopy.lookupG heap0 0
     else (FuseCopy.fuseCopy heap0 hq0).2.getD 0 0 = hq0.getD 0 0)) :=
  ⟨by decide,
   fuse_copy_sharing heap0 hq0 0 7 0 (by decide) (by decide) (by decide)⟩

lemma lastStateUpd_cons (x : Option Tensor) (it : Tensor × List ℕ)
    (l : List (Tensor × List ℕ)) :
    lastStateUpd x (it :: l) = lastStateUpd (some it.1) l := by
  unfold lastStateUpd
  cases l with
  | nil => rfl
  | cons b l' =>
    rw [List.getLast?_cons_cons]
    cases hlast : (b :: l').getLast? with
    | none => exact absurd (List.getLast?_eq_none_iff.mp hlast) (by simp)
    | some p => rfl

lemma leftItems_map_shotItem (l : List (Tensor × List ℕ)) :
    leftItems (l.map (shotItem none)) = l.map Prod.fst := by
  induction l with
  | nil => rfl
  | cons it l' ih => simp [leftItems, shotItem] at ih ⊢; exact ih

lemma rightItems_map_shotItem (m : MGate) (l : List (Tensor × List ℕ)) :
    rightItems (l.map (shotItem (some m))) = l.map (fun it => it.2.headD 0) := by
  induction l with
  | nil => rfl
  | cons it l' ih => simp [rightItems, shotItem] at ih ⊢; exact ih

lemma specShots_length (K : Backend) (c : Circuit) (v : Option PyValue) :
    ∀ (k : ℕ) (r : Rng) (items : List (Tensor × List ℕ)) (r' : Rng),
      Circuit.specShots K c v k r = (.ok items, r') → items.length = k := by
  intro k
  induction k with
  | zero =>
    intro r items r' h
    have h' : ((Except.ok [] : Except Err (List (Tensor × List ℕ))), r)
        = (Except.ok items, r') := h
    simp only [Prod.mk.injEq, Except.ok.injEq] at h'
    rw [← h'.1]
    rfl
  | succ k ih =>
    intro r items r' h
    rcases hdev : Circuit.deviceExecute K c v r with ⟨cd, rd, res⟩
    cases res with
    | error e => simp only [Circuit.specShots, hdev] at h; simp at h
    | ok st =>
      cases hmg : c.measurementGate with
      | some m =>
        simp only [Circuit.specShots, hdev, hmg] at h
        rcases hss : Circuit.specShots K c v k (m.call st 1 rd).2 with ⟨sres, sr⟩
        cases sres with
        | error e => simp only [hss] at h; simp at h
        | ok rest =>
          simp only [hss, Prod.mk.injEq, Except.ok.injEq] at h
          rw [← h.1]
          simp [ih _ _ _ hss]
      | none =>
        simp only [Circuit.specShots, hdev, hmg] at h
        rcases hss : Circuit.specShots K c v k rd with ⟨sres, sr⟩
        cases sres with
        | error e => simp only [hss] at h; simp at h
        | ok rest =>
          simp only [hss, Prod.mk.injEq, Except.ok.injEq] at h
          rw [← h.1]
          simp [ih _ _ _ hss]

lemma specShots_shape (K : Backend) (c : Circuit) (v : Option PyValue)
    (hK : K.customGates = false) :
    ∀ (k : ℕ) (r : Rng) (items : List (Tensor × List ℕ)) (r' : Rng),
      Circuit.specShots K c v k r = (.ok items, r') →
      ∀ it ∈ items, it.1.shape = Circuit.shapeFLAT c := by
  intro k
  induction k with
  | zero =>
    intro r items r' h
    have h' : ((Except.ok [] : Except Err (List (Tensor × List ℕ))), r)
        = (Except.ok items, r') := h
    simp only [Prod.mk.injEq, Except.ok.injEq] at h'
    rw [← h'.1]
    intro it hit
    exact absurd hit (by simp)
  | succ k ih =>
    intro r items r' h
    rcases hdev : Circuit.deviceExecute K c v r with ⟨cd, rd, res⟩
    cases res with
    | error e => simp only [Circuit.specShots, hdev] at h; simp at h
    | ok st =>
      have hstsh : st.shape = Circuit.shapeFLAT c := by
        refine runExecute_ok_shape K c v r st hK (deviceExecute_ok K c v r st ?_)
        rw [hdev]
      cases hmg : c.measurementGate with
      | some m =>
        simp only [Circuit.specShots, hdev, hmg] at h
        rcases hss : Circuit.specShots K c v k (m.call st 1 rd).2 with ⟨sres, sr⟩
        cases sres with
        | error e => simp only [hss] at h; simp at h
        | ok rest =>
          simp only [hss, Prod.mk.injEq, Except.ok.injEq] at h
          rw [← h.1]
          intro it hit
          rcases List.mem_cons.mp hit with rfl | hmem
          · exact hstsh
          · exact ih _ _ _ hss it hmem
      | none =>
        simp only [Circuit.specShots, hdev, hmg] at h
        rcases hss : Circuit.specShots K c v k rd with ⟨sres, sr⟩
        cases sres with
        | error e => simp only [hss] at h; simp at h
        | ok rest =>
          simp only [hss, Prod.mk.injEq, Except.ok.injEq] at h
          rw [← h.1]
          intro it hit
          rcases List.mem_cons.mp hit with rfl | hmem
          · exact hstsh
          · exact ih _ _ _ hss it hmem

/-- The bridge between the code-level loop of `_repeated_execute` (which
threads the mutated circuit object) and the spec-level description of
independent shots on the untouched circuit: random stream and results agree,
and after a successful run `_final_state` holds the last shot's final
state. -/
lemma repLoop_spec (K : Backend) (v : Option PyValue) :
    ∀ (k : ℕ) (c₀ c : Circuit) (r : Rng),
      { c₀ with finalState := none } = { c with finalState := none } →
      (Circuit.repLoop K v k c₀ r).2.1 = (Circuit.specShots K c v k r).2 ∧
      (Circuit.repLoop K v k c₀ r).2.2
          = (Circuit.specShots K c v k r).1.map
              (List.map (shotItem c.measurementGate)) ∧
      (∀ items, (Circuit.specShots K c v k r).1 = .ok items →
          (Circuit.repLoop K v k c₀ r).1
            = { c with finalState := lastStateUpd c₀.finalState items }) := by
  intro k
  induction k with
  | zero =>
    intro c₀ c r hsame
    have h0 : c₀ = { c with finalState := c₀.finalState } :=
      congrArg (fun z => { z with finalState := c₀.finalState }) hsame
    refine ⟨rfl, rfl, ?_⟩
    intro items h
    have h' : (Except.ok [] : Except Err (List (Tensor × List ℕ)))
        = .ok items := h
    cases h'
    exact h0
  | succ k ih =>
    intro c₀ c r hsame
    have h0 : c₀ = { c with finalState := c₀.finalState } :=
      congrArg (fun z => { z with finalState := c₀.finalState }) hsame
    have hdx : Circuit.deviceExecute K c₀ v r
        = Circuit.deviceExecute K c v r := by
      rw [h0]
      exact deviceExecute_finalState_any K c c₀.finalState v r
    have hcas := deviceExecute_cases K c v r
    rcases hdev : Circuit.deviceExecute K c v r with ⟨cd, rd, res⟩
    rw [hdev] at hcas hdx
    rcases hcas with ⟨t0, hc, hres⟩ | ⟨hc, e, hres⟩
    · simp only at hc hres
      subst hres
      have hsame' : { cd with finalState := none }
          = { c with finalState := none } := by rw [hc]
      have hcdfs : cd.finalState = some t0 := by rw [hc]
      cases hmgc : c.measurementGate with
      | none =>
        have hmg0 : cd.measurementGate = none := by rw [hc]; exact hmgc
        have ih' := ih cd c rd hsame'
        rcases hrl : Circuit.repLoop K v k cd rd with ⟨c2, r3, rest⟩
        rcases hss : Circuit.specShots K c v k rd with ⟨sres, sr⟩
        rw [hrl, hss] at ih'
        simp only at ih'
        obtain ⟨ihr, ihres, ihcirc⟩ := ih'
        refine ⟨?_, ?_, ?_⟩
        · simp only [Circuit.repLoop, Circuit.specShots, hdx, hdev, hmg0,
            hmgc, hrl, hss]
          cases sres <;> exact ihr
        · simp only [Circuit.repLoop, Circuit.specShots, hdx, hdev, hmg0,
            hmgc, hrl, hss]
          cases sres with
          | error e => rw [ihres]; rfl
          | ok rest' => rw [ihres, hmgc]; rfl
        · intro items h
          simp only [Circuit.specShots, hdev, hmgc, hss] at h
          cases sres with
          | error e => simp at h
          | ok rest' =>
            simp only [Except.ok.injEq] at h
            subst h
            simp only [Circuit.repLoop, hdx, hmg0, hrl]
            rw [lastStateUpd_cons]
            have hcirc := ihcirc rest' rfl
            rw [hcdfs, hmgc] at hcirc
            exact hcirc
      | some m =>
        have hmg0 : cd.measurementGate = some m := by rw [hc]; exact hmgc
        have ih' := ih cd c (m.call t0 1 rd).2 hsame'
        rcases hrl : Circuit.repLoop K v k cd (m.call t0 1 rd).2
          with ⟨c2, r3, rest⟩
        rcases hss : Circuit.specShots K c v k (m.call t0 1 rd).2
          with ⟨sres, sr⟩
        rw [hrl, hss] at ih'
        simp only at ih'
        obtain ⟨ihr, ihres, ihcirc⟩ := ih'
        refine ⟨?_, ?_, ?_⟩
        · simp only [Circuit.repLoop, Circuit.specShots, hdx, hdev, hmg0,
            hmgc, hrl, hss]
          cases sres <;> exact ihr
        · simp only [Circuit.repLoop, Circuit.specShots, hdx, hdev, hmg0,
            hmgc, hrl, hss]
          cases sres with
          | error e => rw [ihres]; rfl
          | ok rest' => rw [ihres, hmgc]; rfl
        · intro items h
          simp only [Circuit.specShots, hdev, hmgc, hss] at h
          cases sres with
          | error e => simp at h
          | ok rest' =>
            simp only [Except.ok.injEq] at h
            subst h
            simp only [Circuit.repLoop, hdx, hmg0, hrl]
            rw [lastStateUpd_cons]
            have hcirc := ihcirc rest' rfl
            rw [hcdfs, hmgc] at hcirc
            exact hcirc
    · simp only at hc hres
      subst hres
      refine ⟨?_, ?_, ?_⟩
      · simp only [Circuit.repLoop, Circuit.specShots, hdx, hdev]
      · simp only [Circuit.repLoop, Circuit.specShots, hdx, hdev]
        rfl
      · intro items h
        simp only [Circuit.specShots, hdev] at h
        simp at h

lemma execute_repeated (K : Backend) (c : Circuit) (v : Option PyValue)
    (k : ℕ) (rng : Rng) (hrep : c.repeatedExecution = true) :
    Circuit.execute K c v (some k) rng
      = Circuit.repeatedExecute K { c with finalState := none } k v rng := by
  unfold Circuit.execute
  rw [if_pos ⟨rfl, hrep⟩]
  rfl

/-- Reduction of a successful repeated execution to the spec-level shots:
the returned circuit holds the last shot's state in `_final_state`, and the
caller receives either the stacked per-shot states or the aggregated
measurement record. -/
lemma execute_repeated_components (K : Backend) (c : Circuit)
    (v : Option PyValue) (k : ℕ) (rng : Rng)
    (items : List (Tensor × List ℕ)) (r' : Rng)
    (hrep : c.repeatedExecution = true)
    (hspec : Circuit.specShots K c v k rng = (.ok items, r')) :
    (Circuit.execute K c v (some k) rng).1
      = { c with finalState := lastStateUpd none items } ∧
    (match c.measurementGate with
     | none => (Circuit.execute K c v (some k) rng).2.2
         = .ok (.stacked (stackTensors (items.map Prod.fst)))
     | some m => (Circuit.execute K c v (some k) rng).2.2
         = .ok (.circuitResult ⟨c.measurementTuples,
             ⟨m.qubits, items.map (fun it => it.2.headD 0)⟩⟩)) := by
  rw [execute_repeated K c v k rng hrep]
  have hb := repLoop_spec K v k { c with finalState := none } c rng rfl
  rcases hrl : Circuit.repLoop K v k { c with finalState := none } rng
    with ⟨c2, r3, rest⟩
  rw [hrl, hspec] at hb
  simp only at hb
  obtain ⟨hbr, hbres, hbcirc⟩ := hb
  have hc2 : c2 = { c with finalState := lastStateUpd none items } :=
    hbcirc items rfl
  unfold Circuit.repeatedExecute
  rw [hrl]
  cases hmgc : c.measurementGate with
  | none =>
    rw [hmgc] at hbres
    have hrest : rest = .ok (items.map (shotItem none)) := hbres
    subst hrest
    have hmg2 : c2.measurementGate = none := by rw [hc2]; exact hmgc
    simp only [hmg2]
    rw [leftItems_map_shotItem]
    rw [hmgc] at hc2
    exact ⟨hc2, rfl⟩
  | some m =>
    rw [hmgc] at hbres
    have hrest : rest = .ok (items.map (shotItem (some m))) := hbres
    subst hrest
    have hmg2 : c2.measurementGate = some m := by rw [hc2]; exact hmgc
    have hmt2 : c2.measurementTuples = c.measurementTuples := by rw [hc2]
    simp only [hmg2]
    rw [rightItems_map_shotItem, hmt2]
    rw [hmgc] at hc2
    exact ⟨hc2, rfl⟩

/-- Claim C2: a state-vector circuit with stochastic channels
(`repeated_execution`), executed with `nshots` given, independently
re-executes the full queue `nshots` times from a fresh initial state
(`specShots` is exactly that spec-level description); without a measurement
gate the caller gets a stacked tensor of shape `(nshots, 2^n)`, with a
measurement gate one result record aggregating the `nshots` single-shot
samples. -/
theorem repeated_execution_spec (K : Backend) (c : Circuit)
    (v : Option PyValue) (k : ℕ) (rng : Rng)
    (items : List (Tensor × List ℕ)) (r' : Rng)
    (hrep : c.repeatedExecution = true) (hK : K.customGates = false)
    (hdm : c.isDensityMatrix = false) (hk : 1 ≤ k)
    (hspec : Circuit.specShots K c v k rng = (.ok items, r')) :
    items.length = k ∧
    (∀ it ∈ items, it.1.shape = [2 ^ c.nqubits]) ∧
    (match c.measurementGate with
     | none =>
       (Circuit.execute K c v (some k) rng).2.2
         = .ok (.stacked (stackTensors (items.map Prod.fst))) ∧
       (stackTensors (items.map Prod.fst)).shape = [k, 2 ^ c.nqubits]
     | some m =>
       (Circuit.execute K c v (some k) rng).2.2
         = .ok (.circuitResult ⟨c.measurementTuples,
             ⟨m.qubits, items.map (fun it => it.2.headD 0)⟩⟩)
       ∧ (items.map (fun it => it.2.headD 0)).length = k) := by
  have hlen := specShots_length K c v k rng items r' hspec
  have hflat : Circuit.shapeFLAT c = [2 ^ c.nqubits] := by
    simp [Circuit.shapeFLAT, hdm]
  have hsh : ∀ it ∈ items, it.1.shape = [2 ^ c.nqubits] := by
    intro it hit
    rw [← hflat]
    exact specShots_shape K c v hK k rng items r' hspec it hit
  have hcomp := execute_repeated_components K c v k rng items r' hrep hspec
  refine ⟨hlen, hsh, ?_⟩
  cases hmgc : c.measurementGate with
  | none =>
    rw [hmgc] at hcomp
    refine ⟨hcomp.2, ?_⟩
    have hne : items ≠ [] := by
      intro he
      subst he
      simp at hlen
      omega
    obtain ⟨it0, its, hitems⟩ := List.exists_cons_of_ne_nil hne
    have hhd : it0.1.shape = [2 ^ c.nqubits] := by
      refine hsh it0 ?_
      rw [hitems]
      exact List.mem_cons_self _ _
    rw [hitems]
    simp only [stackTensors, List.map_cons, List.headD_cons, List.length_cons,
      List.length_map]
    rw [hhd]
    rw [hitems] at hlen
    simp only [List.length_cons] at hlen
    rw [hlen]
  | some m =>
    rw [hmgc] at hcomp
    refine ⟨hcomp.2, ?_⟩
    rw [List.length_map]
    exact hlen

/-- Claim C10 (implicit): after a successful repeated execution the
`final_state` property does not raise; it returns the flat `(2^n,)` final
state of the last individual shot, not the stacked `(nshots, 2^n)` tensor
returned to the caller. -/
theorem repeated_execution_final_state (K : Backend) (c : Circuit)
    (v : Option PyValue) (k : ℕ) (rng : Rng)
    (items : List (Tensor × List ℕ)) (r' : Rng)
    (hrep : c.repeatedExecution = true) (hK : K.customGates = false)
    (hdm : c.isDensityMatrix = false) (hk : 1 ≤ k)
    (hspec : Circuit.specShots K c v k rng = (.ok items, r')) :
    ∃ t samp, items.getLast? = some (t, samp) ∧
      (Circuit.execute K c v (some k) rng).1.finalState = some t ∧
      (Circuit.execute K c v (some k) rng).1.finalStateProperty = .ok t ∧
      t.shape = [2 ^ c.nqubits] ∧
      t ≠ stackTensors (items.map Prod.fst) := by
  have hlen := specShots_length K c v k rng items r' hspec
  have hflat : Circuit.shapeFLAT c = [2 ^ c.nqubits] := by
    simp [Circuit.shapeFLAT, hdm]
  have hsh : ∀ it ∈ items, it.1.shape = [2 ^ c.nqubits] := by
    intro it hit
    rw [← hflat]
    exact specShots_shape K c v hK k rng items r' hspec it hit
  have hne : items ≠ [] := by
    intro he
    subst he
    simp at hlen
    omega
  have hlast := List.getLast?_eq_getLast_of_ne_nil hne
  have hcomp := execute_repeated_components K c v k rng items r' hrep hspec
  have hlsu : lastStateUpd none items = some ((items.getLast hne).1) := by
    unfold lastStateUpd
    rw [hlast]
  have hfs : (Circuit.execute K c v (some k) rng).1.finalState
      = some ((items.getLast hne).1) := by
    rw [hcomp.1]
    exact hlsu
  have hshape : (items.getLast hne).1.shape = [2 ^ c.nqubits] :=
    hsh _ (List.getLast_mem hne)
  refine ⟨(items.getLast hne).1, (items.getLast hne).2, ?_, hfs, ?_, hshape, ?_⟩
  · rw [hlast]
  · unfold Circuit.finalStateProperty
    rw [hfs]
  · intro heq
    have h1 := congrArg Tensor.shape heq
    rw [hshape] at h1
    obtain ⟨it0, its, hitems⟩ := List.exists_cons_of_ne_nil hne
    have hhd : it0.1.shape = [2 ^ c.nqubits] := by
      refine hsh it0 ?_
      rw [hitems]
      exact List.mem_cons_self _ _
    rw [hitems] at h1
    simp only [stackTensors, List.map_cons, List.headD_cons] at h1
    rw [hhd] at h1
    simp at h1

/-- Witness for C2 at a 1-qubit repeated-execution circuit (one identity
channel, no measurement gate), two shots. -/
theorem repeated_execution_spec_witness :
    cRep.repeatedExecution = true ∧ K0.customGates = false ∧
    cRep.isDensityMatrix = false ∧ 1 ≤ 2 ∧
    Circuit.specShots K0 cRep none 2 []
      = (.ok [(tKet0, []), (tKet0, [])], []) ∧
    (([(tKet0, []), (tKet0, [])] : List (Tensor × List ℕ)).length = 2 ∧
     (∀ it ∈ ([(tKet0, []), (tKet0, [])] : List (Tensor × List ℕ)),
        it.1.shape = [2 ^ cRep.nqubits]) ∧
     ((Circuit.execute K0 cRep none (some 2) []).2.2
         = .ok (.stacked (stackTensors
             (([(tKet0, []), (tKet0, [])] : List (Tensor × List ℕ)).map
               Prod.fst))) ∧
      (stackTensors (([(tKet0, []), (tKet0, [])] : List (Tensor × List ℕ)).map
          Prod.fst)).shape = [2, 2 ^ cRep.nqubits])) :=
  ⟨rfl, rfl, rfl, by decide, rfl,
   repeated_execution_spec K0 cRep none 2 [] [(tKet0, []), (tKet0, [])] []
     rfl rfl rfl (by decide) rfl⟩

/-- Witness for C10 at the same circuit: after two shots, `final_state` holds
the last shot's flat state, not the stacked tensor. -/
theorem repeated_execution_final_state_witness :
    cRep.repeatedExecution = true ∧
    Circuit.specShots K0 cRep none 2 []
      = (.ok [(tKet0, []), (tKet0, [])], []) ∧
    (∃ t samp,
      ([(tKet0, []), (tKet0, [])] : List (Tensor × List ℕ)).getLast?
          = some (t, samp) ∧
      (Circuit.execute K0 cRep none (some 2) []).1.finalState = some t ∧
      (Circuit.execute K0 cRep none (some 2) []).1.finalStateProperty
          = .ok t ∧
      t.shape = [2 ^ cRep.nqubits] ∧
      t ≠ stackTensors
            (([(tKet0, []), (tKet0, [])] : List (Tensor × List ℕ)).map
              Prod.fst)) :=
  ⟨rfl, rfl,
   repeated_execution_final_state K0 cRep none 2 []
     [(tKet0, []), (tKet0, [])] [] rfl rfl rfl (by decide) rfl⟩

end Qibo
